import Mathlib

/-
Shallow embedding of the extended-isolation-forest crate (src/lib.rs).

Modelling conventions:
* Floating-point coordinate values (the generic `T : Float` of the crate,
  instantiated at f32/f64) are modelled as exact rationals; the comparisons,
  subtractions and divisions performed on coordinates are exact in every
  concrete instance used below, and the idealisation is noted wherever the
  IEEE behaviour differs (division by zero inside `are_equal`).
* The f64 results of `c_factor` and `score` are modelled as real numbers.
* The random number generator is modelled as an oracle: every random draw the
  code performs becomes a lookup in a caller-supplied table. Tree construction
  receives one oracle record per tree node, addressed by the node's root path
  (a list of booleans, false = left child).
* A Rust panic is modelled as the value `none`; an `Option` layer is added to
  every function whose source can panic. `rand 0.8`'s `Uniform::new(lo, hi)`
  asserts `lo < hi` and panics otherwise, which is exactly the `none` case of
  `interceptCoord` below. Likewise `Forest::score`'s `0.0 / 0.0` (an f64 NaN)
  for an empty forest is modelled as `none`.
-/

namespace EIF

/-- Points of the fixed dimension `N` (the `[T; N]` arrays of the crate). -/
abbrev Point (N : ℕ) := Fin N → ℚ

/-- Modelled from the spec: the error taxonomy of the crate (module `error`
is declared in `lib.rs` but its file is not among the sources; the spec's
section 7 lists exactly these two variants). -/
inductive Error where
  | insufficientTrainingData
  | extensionLevelExceedsDimensions
deriving DecidableEq

/-- Configuration options (struct `ForestOptions` in `lib.rs`). -/
structure ForestOptions where
  n_trees : ℕ
  sample_size : ℕ
  max_tree_depth : Option ℕ
  extension_level : ℕ

/-- Side of a splitting hyperplane (enum `Direction` in `lib.rs`). -/
inductive Direction where
  | Left
  | Right
deriving DecidableEq

/-- The fold computed by `determinate_direction` in `lib.rs`: iterate over the
coordinates in order, accumulating `sum + (sample_i - p_i) * n_i`. -/
def direction_value {N : ℕ} (sample n p : Point N) : ℚ :=
  (List.finRange N).foldl (fun sum i => sum + (sample i - p i) * n i) 0

/-- Function `determinate_direction` of `lib.rs`: `Left` when the accumulated
value is `<= 0`, `Right` otherwise. -/
def determinate_direction {N : ℕ} (sample n p : Point N) : Direction :=
  if direction_value sample n p ≤ 0 then Direction.Left else Direction.Right

/-- Function `as_f64` of `lib.rs`: `integer_decode` followed by
`sign * mantissa * 2.0^exponent`. For every finite f32/f64 input this
reconstruction is exact, so on the rational model it is the identity. -/
def as_f64 (num : ℚ) : ℚ := num

/-- Function `are_equal` of `lib.rs`: it computes `((a - b).abs() / a) < 1e-4`
in f64 arithmetic. The division is modelled exactly, except that f64 division
by zero yields `inf` or `NaN`, for which the `< 1e-4` comparison is false in
IEEE semantics; the `a = 0` guard below reproduces that outcome. Note that the
denominator is the signed value `a`, not `abs a`, exactly as in the source. -/
def are_equal (a b : ℚ) : Bool :=
  let a := as_f64 a
  let b := as_f64 b
  if a = 0 then false else decide (|a - b| / a < 1 / 10000)

/-- Per-coordinate intercept choice inside `make_node` of `lib.rs`: keep
`min_val` when `are_equal(min_val, max_val)`, otherwise sample
`Uniform::new(min_val, max_val)` — which panics (`none`) unless
`min_val < max_val`. The `draw` argument is the rng oracle for this
coordinate; the real sampler returns a value in the half-open range. -/
def interceptCoord (draw : ℚ → ℚ → ℚ) (mn mx : ℚ) : Option ℚ :=
  if are_equal mn mx then some mn
  else if mn < mx then some (draw mn mx) else none

/-- Node of a tree (enum `Node` with `ExNode`/`InNode` payloads in `lib.rs`).
`Ex` carries `num_samples`; `In` carries the two children, the normal vector
`n` and the intercept point `p`. -/
inductive Node (N : ℕ) where
  | Ex (num_samples : ℕ)
  | In (left right : Node N) (n p : Point N)

/-- Per-coordinate minima of a nonempty sample list, computed as in
`make_node`: start from the first sample and fold the comparison
`if v < mins_i then v else mins_i` over the remaining samples. -/
def minsOf {N : ℕ} (s0 : Point N) (rest : List (Point N)) : Point N :=
  rest.foldl (fun mins s => fun i => if s i < mins i then s i else mins i) s0

/-- Per-coordinate maxima, folded as `if v > maxs_i then v else maxs_i`. -/
def maxsOf {N : ℕ} (s0 : Point N) (rest : List (Point N)) : Point N :=
  rest.foldl (fun maxs s => fun i => if s i > maxs i then s i else maxs i) s0

/-- Normal-vector construction in `make_node` of `lib.rs`: first every
coordinate is drawn from `StandardNormal` (oracle `draw`), then the entries at
the indices selected by `choose_multiple` (oracle output `idxs`) are
overwritten with exactly zero. -/
def makeNormal {N : ℕ} (draw : Point N) (idxs : List (Fin N)) : Point N :=
  fun i => if i ∈ idxs then 0 else draw i

/-- Rng oracle for the construction of one tree node: `uniformDraw i lo hi`
models `rng.sample(Uniform::new(lo, hi))` for coordinate `i` of the intercept,
`normalDraw i` models the `StandardNormal` draw for coordinate `i` of the
normal vector, and `chooseIdxs k` models `(0..N).choose_multiple(rng, k)`. -/
structure NodeRand (N : ℕ) where
  uniformDraw : Fin N → ℚ → ℚ → ℚ
  normalDraw : Fin N → ℚ
  chooseIdxs : ℕ → List (Fin N)

/-- Intercept point `p` of `make_node`: one `interceptCoord` per coordinate;
a panic on any coordinate (`isSome` false) aborts the construction. -/
def interceptOf {N : ℕ} (draw : Fin N → ℚ → ℚ → ℚ) (mins maxs : Point N) :
    Option (Point N) :=
  if (List.finRange N).all
      (fun i => (interceptCoord (draw i) (mins i) (maxs i)).isSome) then
    some (fun i => (interceptCoord (draw i) (mins i) (maxs i)).getD 0)
  else
    none

/-- Recursion core of `make_node` of `lib.rs`, structurally recursive on
`fuel := max_tree_depth - current_tree_depth`. The source stops when
`current_tree_depth >= max_tree_depth` (that is, fuel zero) or when at most
one sample is left; otherwise it chooses a hyperplane, partitions the samples
by `determinate_direction`, and recurses into both parts at depth + 1
(fuel - 1). `path` addresses the per-node rng oracle; the two filter passes
reproduce the single partitioning loop of the source. -/
def make_node_core {N : ℕ} (rand : List Bool → NodeRand N)
    (extension_level : ℕ) :
    ℕ → List (Point N) → List Bool → Option (Node N)
  | 0, samples, _ => some (Node.Ex samples.length)
  | fuel + 1, samples, path =>
    if samples.length ≤ 1 then some (Node.Ex samples.length)
    else
      match samples with
      | [] => some (Node.Ex 0)
      | s0 :: rest =>
        let mins := minsOf s0 rest
        let maxs := maxsOf s0 rest
        let nr := rand path
        match interceptOf nr.uniformDraw mins maxs with
        | none => none
        | some p =>
          let n := makeNormal nr.normalDraw (nr.chooseIdxs (N - extension_level - 1))
          let samples_left := (s0 :: rest).filter fun s =>
            match determinate_direction s n p with
            | Direction.Left => true
            | Direction.Right => false
          let samples_right := (s0 :: rest).filter fun s =>
            match determinate_direction s n p with
            | Direction.Left => false
            | Direction.Right => true
          match make_node_core rand extension_level fuel samples_left (path ++ [false]),
                make_node_core rand extension_level fuel samples_right (path ++ [true]) with
          | some l, some r => some (Node.In l r n p)
          | _, _ => none

/-- Function `make_node` of `lib.rs`. In the source the recursion terminates
because `current_tree_depth` grows towards `max_tree_depth`; here the distance
between the two is passed as structural fuel, and `current_tree_depth >=
max_tree_depth` is exactly `fuel = 0`. -/
def make_node {N : ℕ} (samples : List (Point N)) (rand : List Bool → NodeRand N)
    (current_tree_depth max_tree_depth extension_level : ℕ) : Option (Node N) :=
  make_node_core rand extension_level (max_tree_depth - current_tree_depth)
    samples []

/-- A tree owns one root node (struct `Tree` in `lib.rs`). -/
structure Tree (N : ℕ) where
  root : Node N

/-- Constructor `Tree::new` of `lib.rs`: build the root via `make_node` at
depth 0. -/
def Tree.new {N : ℕ} (samples : List (Point N)) (rand : List Bool → NodeRand N)
    (max_tree_depth extension_level : ℕ) : Option (Tree N) :=
  (make_node samples rand 0 max_tree_depth extension_level).map Tree.mk

/-- Function `c_factor` of `lib.rs`:
`2 * (ln(n - 1) + 0.5772156649) - 2 * (n - 1) / n`, with `n as f64 - 1.0`
computed before the logarithm, exactly as in the source. -/
noncomputable def c_factor (n : ℕ) : ℝ :=
  2 * (Real.log ((n : ℝ) - 1) + 0.5772156649) - 2 * ((n : ℝ) - 1) / (n : ℝ)

/-- Function `path_length_recurse` of `lib.rs`: an external node contributes
0 when `num_samples <= 1` and `c_factor(num_samples)` otherwise; an internal
node contributes 1 plus the recursion into the child selected by
`determinate_direction`. -/
noncomputable def path_length_recurse {N : ℕ} : Node N → Point N → ℝ
  | Node.Ex num_samples, _ =>
    if num_samples ≤ 1 then 0 else c_factor num_samples
  | Node.In left right n p, values =>
    1 + (match determinate_direction values n p with
         | Direction.Left => path_length_recurse left values
         | Direction.Right => path_length_recurse right values)

/-- Method `Tree::path_length` of `lib.rs`. -/
noncomputable def Tree.path_length {N : ℕ} (t : Tree N) (values : Point N) : ℝ :=
  path_length_recurse t.root values

/-- Rng oracle for the construction of one whole tree: `sampleChoice` models
the result of `training_data.choose_multiple(rng, sample_size)` and
`nodeRand` supplies the per-node oracles. -/
structure TreeRand (N : ℕ) where
  sampleChoice : List (Point N)
  nodeRand : List Bool → NodeRand N

/-- The validation prelude of `Forest::from_slice` in `lib.rs`, in source
order: `InsufficientTrainingData` when `training_data.len() <
options.sample_size || N == 0`, then `ExtensionLevelExceedsDimensions` when
`options.extension_level > N - 1`. -/
def validate_options (N len : ℕ) (options : ForestOptions) : Option Error :=
  if len < options.sample_size ∨ N = 0 then
    some Error.insufficientTrainingData
  else if options.extension_level > N - 1 then
    some Error.extensionLevelExceedsDimensions
  else
    none

/-- Resolution of `max_tree_depth` in `Forest::from_slice`: the explicit value
when given, else `(sample_size as f64).log2().ceil() as usize`, which is
`Nat.clog 2 sample_size` (for `sample_size = 0` the f64 expression is
`(-inf).ceil() as usize = 0 = Nat.clog 2 0`). -/
def resolved_max_tree_depth (options : ForestOptions) : ℕ :=
  match options.max_tree_depth with
  | some mdt => mdt
  | none => Nat.clog 2 options.sample_size

/-- The tree-building loop of `Forest::from_slice`: one tree per element of
`0..n_trees`, each from its own sample draw; a panic in any tree aborts the
whole call. -/
def build_trees {N : ℕ} (rand : ℕ → TreeRand N) (max_tree_depth extension_level : ℕ) :
    List ℕ → Option (List (Tree N))
  | [] => some []
  | t :: ts =>
    match Tree.new (rand t).sampleChoice (rand t).nodeRand max_tree_depth extension_level,
          build_trees rand max_tree_depth extension_level ts with
    | some tr, some rest => some (tr :: rest)
    | _, _ => none

/-- A forest (struct `Forest` in `lib.rs`): the normalisation constant
`avg_path_length_c` and the boxed slice of trees. -/
structure Forest (N : ℕ) where
  avg_path_length_c : ℝ
  trees : List (Tree N)

/-- Method `Forest::from_slice` of `lib.rs`: validate, resolve the depth cap,
build `n_trees` trees, then return the forest with
`avg_path_length_c = c_factor(sample_size)`. -/
noncomputable def Forest.from_slice {N : ℕ} (training_data : List (Point N))
    (options : ForestOptions) (rand : ℕ → TreeRand N) :
    Option (Except Error (Forest N)) :=
  match validate_options N training_data.length options with
  | some e => some (Except.error e)
  | none =>
    (build_trees rand (resolved_max_tree_depth options) options.extension_level
        (List.range options.n_trees)).map
      fun ts =>
        Except.ok { avg_path_length_c := c_factor options.sample_size, trees := ts }

/-- Method `Forest::score` of `lib.rs`: sum the per-tree path lengths, divide
by the number of trees, and return `2^(-eh / avg_path_length_c)`. For an empty
forest the source divides `0.0` by `0`, an f64 NaN that propagates to the
returned score; that NaN outcome is modelled as `none`. -/
noncomputable def Forest.score {N : ℕ} (f : Forest N) (values : Point N) :
    Option ℝ :=
  if f.trees.length = 0 then none
  else
    some ((2 : ℝ) ^
      (-((f.trees.map fun t => t.path_length values).sum / (f.trees.length : ℝ)) /
        f.avg_path_length_c))

/-- Number of internal nodes on the root-to-leaf path that the query point
traverses (the descent always follows `determinate_direction`). -/
def descent_depth {N : ℕ} : Node N → Point N → ℕ
  | Node.Ex _, _ => 0
  | Node.In left right n p, values =>
    1 + (match determinate_direction values n p with
         | Direction.Left => descent_depth left values
         | Direction.Right => descent_depth right values)

/-- The `num_samples` field of the external node that the query point
reaches. -/
def descent_leaf_samples {N : ℕ} : Node N → Point N → ℕ
  | Node.Ex num_samples, _ => num_samples
  | Node.In left right n p, values =>
    match determinate_direction values n p with
    | Direction.Left => descent_leaf_samples left values
    | Direction.Right => descent_leaf_samples right values

/-- Relative-tolerance equality in the sense of the spec's words: the two
values differ by at most a 1e-4 fraction of their magnitude. -/
abbrev spec_rel_eq (a b : ℚ) : Prop := |a - b| ≤ 1 / 10000 * max |a| |b|

/-- Claim C1 as stated: whenever the two range bounds are numerically equal
within a relative tolerance of 1e-4 the intercept coordinate is the minimum,
and otherwise it is the value produced by the uniform sampler, for all
coordinate values. -/
def hyperplane_intercept_claim : Prop :=
  ∀ (draw : ℚ → ℚ → ℚ) (mn mx : ℚ), mn ≤ mx →
    (spec_rel_eq mn mx → interceptCoord draw mn mx = some mn) ∧
    (¬spec_rel_eq mn mx → interceptCoord draw mn mx = some (draw mn mx))

/-- Claim C3 as stated: the leaf-correction call site only applies `c_factor`
to `num_samples ≥ 2` (equivalently, a small leaf contributes 0), and every
set of options that passes `from_slice` validation has `sample_size ≥ 2`. -/
def c_factor_guard_claim : Prop :=
  (∀ (N : ℕ) (x : Point N) (ns : ℕ), ns ≤ 1 →
    path_length_recurse (Node.Ex ns) x = 0) ∧
  (∀ (N len : ℕ) (o : ForestOptions), validate_options N len o = none →
    2 ≤ o.sample_size)

/-- Claim C7 as stated: every forest successfully returned by `from_slice`
gives every point a score that is an actual number in the interval (0, 1]. -/
def score_range_claim : Prop :=
  ∀ (N : ℕ) (data : List (Point N)) (o : ForestOptions) (r : ℕ → TreeRand N)
    (F : Forest N) (x : Point N),
    Forest.from_slice data o r = some (Except.ok F) →
    Forest.score F x ≠ none ∧
    0 < (Forest.score F x).getD 0 ∧ (Forest.score F x).getD 0 ≤ 1

/-- One-dimensional point with coordinate 0. -/
def pt0 : Point 1 := fun _ => 0

/-- One-dimensional point with coordinate 1. -/
def pt1 : Point 1 := fun _ => 1

/-- Concrete per-node rng oracle: uniform draws return 1/2, standard-normal
draws return 1, and `choose_multiple` returns no indices. -/
def bNodeRand : NodeRand 1 :=
  { uniformDraw := fun _ _ _ => 1 / 2
    normalDraw := fun _ => 1
    chooseIdxs := fun _ => [] }

/-- Concrete per-tree rng oracle drawing the sample `[pt0, pt1]` (the unique
2-element sample of that training set). -/
def bTreeRand : TreeRand 1 :=
  { sampleChoice := [pt0, pt1]
    nodeRand := fun _ => bNodeRand }

/-- Options used by the concrete well-behaved build: one tree, sample size 2,
depth cap 1, extension level 0. -/
def bOpts : ForestOptions :=
  { n_trees := 1, sample_size := 2, max_tree_depth := some 1, extension_level := 0 }

/-- The forest that `from_slice [pt0, pt1] bOpts` builds with the oracle
`bTreeRand`: one tree whose root splits at intercept 1/2 with normal 1 and
has two singleton leaves. -/
noncomputable def bForest : Forest 1 :=
  { avg_path_length_c := c_factor 2
    trees := [⟨Node.In (Node.Ex 1) (Node.Ex 1) (fun _ => 1) (fun _ => 1 / 2)⟩] }

/-- One-dimensional point with coordinate 0, used for the degenerate
all-zero datasets. -/
def zeroPoint : Point 1 := fun _ => 0

/-- Per-node rng oracle for the degenerate runs (its values are irrelevant:
the run aborts inside `interceptCoord` before any draw is used). -/
def zNodeRand : NodeRand 1 :=
  { uniformDraw := fun _ lo _ => lo
    normalDraw := fun _ => 1
    chooseIdxs := fun _ => [] }

/-- Per-tree oracle drawing the whole 2-point all-zero training set (the only
possible 2-element draw from it). -/
def zTreeRand : TreeRand 1 :=
  { sampleChoice := [zeroPoint, zeroPoint]
    nodeRand := fun _ => zNodeRand }

/-- Options for the 2-point degenerate run: one tree, sample size 2, depth
cap 1 (the value the default `ceil(log2 2))` would also take), extension
level 0. -/
def zOpts : ForestOptions :=
  { n_trees := 1, sample_size := 2, max_tree_depth := some 1, extension_level := 0 }

/-- Per-tree oracle drawing the whole 3-point all-zero training set. -/
def z3TreeRand : TreeRand 1 :=
  { sampleChoice := [zeroPoint, zeroPoint, zeroPoint]
    nodeRand := fun _ => zNodeRand }

/-- Options for the 3-point degenerate run: two trees, sample size 3, depth
cap 2, extension level 0. -/
def z3Opts : ForestOptions :=
  { n_trees := 2, sample_size := 3, max_tree_depth := some 2, extension_level := 0 }

/-- The fold of `determinate_direction` computes the dot product
`(sample - p) . n`. -/
theorem direction_value_eq_sum {N : ℕ} (sample n p : Point N) :
    direction_value sample n p = ∑ i, (sample i - p i) * n i := by
  have key : ∀ (l : List (Fin N)) (init : ℚ),
      l.foldl (fun sum i => sum + (sample i - p i) * n i) init =
        init + (l.map fun i => (sample i - p i) * n i).sum := by
    intro l
    induction l with
    | nil => intro init; simp
    | cons a t ih =>
      intro init
      simp only [List.foldl_cons, List.map_cons, List.sum_cons, ih]
      ring
  rw [direction_value, key, Fin.sum_univ_def]
  simp

/-- The normalisation constant is strictly positive on its documented domain
`n ≥ 2`. -/
theorem c_factor_pos {n : ℕ} (hn : 2 ≤ n) : 0 < c_factor n := by
  have hnR : (2 : ℝ) ≤ (n : ℝ) := by exact_mod_cast hn
  have hnpos : (0 : ℝ) < (n : ℝ) := by linarith
  have hdiv : 2 * ((n : ℝ) - 1) / (n : ℝ) < 2 := by
    rw [div_lt_iff₀ hnpos]; linarith
  rcases eq_or_lt_of_le hn with h2 | h3
  · rw [c_factor, ← h2]
    norm_num [Real.log_one]
  · have h3R : (3 : ℝ) ≤ (n : ℝ) := by exact_mod_cast h3
    have hlog2 : Real.log 2 ≤ Real.log ((n : ℝ) - 1) :=
      Real.log_le_log (by norm_num) (by linarith)
    have hgt : (0.6931471803 : ℝ) < Real.log 2 := Real.log_two_gt_d9
    rw [c_factor]
    linarith

/-- Every path length the leaf correction can produce is nonnegative. -/
theorem path_length_recurse_nonneg {N : ℕ} (node : Node N) (x : Point N) :
    0 ≤ path_length_recurse node x := by
  induction node with
  | Ex ns =>
    by_cases h : ns ≤ 1
    · simp [path_length_recurse, h]
    · have h2 : 2 ≤ ns := by omega
      simp only [path_length_recurse, if_neg h]
      exact (c_factor_pos h2).le
  | In l r nv pv ihl ihr =>
    simp only [path_length_recurse]
    rcases h : determinate_direction x nv pv with _ | _
    · simp only [h]; linarith
    · simp only [h]; linarith

/-- When the tree-building loop succeeds it builds one tree per loop index. -/
theorem build_trees_length {N : ℕ} (rand : ℕ → TreeRand N) (mdt ext : ℕ) :
    ∀ (idxs : List ℕ) (trs : List (Tree N)),
      build_trees rand mdt ext idxs = some trs → trs.length = idxs.length := by
  intro idxs
  induction idxs with
  | nil =>
    intro trs h
    simp only [build_trees, Option.some.injEq] at h
    simp [← h]
  | cons a t ih =>
    intro trs h
    rw [build_trees] at h
    rcases h1 : Tree.new (rand a).sampleChoice (rand a).nodeRand mdt ext with _ | tr
    · rw [h1] at h; simp at h
    · rcases h2 : build_trees rand mdt ext t with _ | rest
      · rw [h1, h2] at h; simp at h
      · rw [h1, h2] at h
        simp only [Option.some.injEq] at h
        subst h
        simp [ih rest h2]

/-- Inversion of a successful `from_slice`: validation passed, the stored
constant is `c_factor sample_size`, and there are `n_trees` trees. -/
theorem from_slice_ok_parts {N : ℕ} {data : List (Point N)} {o : ForestOptions}
    {r : ℕ → TreeRand N} {F : Forest N}
    (h : Forest.from_slice data o r = some (Except.ok F)) :
    validate_options N data.length o = none ∧
    F.avg_path_length_c = c_factor o.sample_size ∧
    F.trees.length = o.n_trees := by
  unfold Forest.from_slice at h
  rcases hv : validate_options N data.length o with _ | e
  · rw [hv] at h
    rcases hb : build_trees r (resolved_max_tree_depth o) o.extension_level
        (List.range o.n_trees) with _ | ts
    · rw [hb] at h; simp at h
    · rw [hb] at h
      simp only [Option.map_some', Option.some.injEq, Except.ok.injEq] at h
      refine ⟨rfl, ?_, ?_⟩
      · rw [← h]
      · rw [← h]
        simpa using build_trees_length r _ _ _ _ hb
  · rw [hv] at h; simp at h

/-- Characterisation of the two validation errors of `from_slice`, in the
order the source checks them. -/
theorem from_slice_error_characterisation {N : ℕ} (data : List (Point N))
    (o : ForestOptions) (r : ℕ → TreeRand N) :
    (Forest.from_slice data o r =
        some (Except.error Error.insufficientTrainingData) ↔
      (data.length < o.sample_size ∨ N = 0)) ∧
    (Forest.from_slice data o r =
        some (Except.error Error.extensionLevelExceedsDimensions) ↔
      (¬(data.length < o.sample_size ∨ N = 0) ∧ N - 1 < o.extension_level)) := by
  unfold Forest.from_slice validate_options
  by_cases h1 : data.length < o.sample_size ∨ N = 0
  · simp [h1]
  · by_cases h2 : o.extension_level > N - 1
    · simp [h1, h2]
    · rcases hb : build_trees r (resolved_max_tree_depth o) o.extension_level
          (List.range o.n_trees) with _ | ts
      · simp [h1, h2, hb]
      · simp [h1, h2, hb]

/-- Claim C1, refuted: the intercept rule of `make_node` does not follow the
relative-tolerance description for all coordinate values. At `min = -10`,
`max = 10` (not equal within any relative tolerance) the code's `are_equal`
is nevertheless true, because it divides by the signed minimum, so the
intercept is `-10` instead of the sampler's value. -/
theorem C1_counterexample : ¬hyperplane_intercept_claim := by
  intro h
  have h2 := (h (fun _ _ => 0) (-10) 10 (by norm_num)).2 (by norm_num [spec_rel_eq])
  have h3 : interceptCoord (fun _ _ => (0 : ℚ)) (-10) 10 = some (-10) := by
    have ha : are_equal (-10) 10 = true := by norm_num [are_equal, as_f64]
    simp [interceptCoord, ha]
  rw [h3] at h2
  simp at h2

/-- Claim C1 as amended: the intercept coordinate is `min` exactly when the
code's check `are_equal min max` — the comparison `abs (min - max) / min <
1e-4` with the signed `min` in the denominator, false whenever `min = 0` —
holds; otherwise the sampler value is used when `min < max`, and when
`min = max = 0` the check fails and the invalid-range draw (a panic) is
invoked. Any negative `min` makes `are_equal` true regardless of `max`. -/
theorem C1_amended_intercept (draw : ℚ → ℚ → ℚ) (mn mx : ℚ) :
    (are_equal mn mx = true → interceptCoord draw mn mx = some mn) ∧
    (are_equal mn mx = false → mn < mx →
      interceptCoord draw mn mx = some (draw mn mx)) ∧
    (mn < 0 → are_equal mn mx = true) ∧
    (mn = 0 → mx = 0 → interceptCoord draw mn mx = none) := by
  refine ⟨?_, ?_, ?_, ?_⟩
  · intro h; simp [interceptCoord, h]
  · intro h hlt; simp [interceptCoord, h, hlt]
  · intro h
    have hne : mn ≠ 0 := ne_of_lt h
    simp only [are_equal, as_f64, if_neg hne, decide_eq_true_eq]
    have habs : 0 ≤ |mn - mx| := abs_nonneg _
    have hq : |mn - mx| / mn ≤ 0 := div_nonpos_of_nonneg_of_nonpos habs h.le
    linarith
  · intro h0 hx0
    subst h0
    subst hx0
    simp [interceptCoord, are_equal, as_f64]

/-- Claim C2: the degenerate-range guard fails on an exactly-zero degenerate
range. On the training set of two copies of the origin (passing validation
with sample size 2), `are_equal 0 0` computes `0.0 / 0.0` — an f64 NaN, so
the comparison is false — and `make_node` invokes `Uniform::new(0, 0)`, the
invalid-range draw that panics; the build therefore aborts (`none`) instead
of completing. -/
theorem C2_zero_range_invalid_draw :
    Forest.from_slice [zeroPoint, zeroPoint] zOpts (fun _ => zTreeRand) = none ∧
    are_equal 0 0 = false ∧
    interceptCoord (fun lo _ => lo) 0 0 = none :=
  ⟨rfl, by decide, by decide⟩

/-- Claim C3, refuted: validation in `from_slice` does not enforce
`sample_size ≥ 2` — options with `sample_size = 1` (or 0) pass whenever the
training set is at least that large, and `c_factor` is then applied to that
sample size. -/
theorem C3_counterexample : ¬c_factor_guard_claim := by
  intro h
  have h2 := h.2 1 1
    { n_trees := 1, sample_size := 1, max_tree_depth := none, extension_level := 0 } rfl
  have h3 : (2 : ℕ) ≤ 1 := h2
  omega

/-- Claim C3 as amended: the leaf call site does guard — an external node
with `num_samples ≤ 1` contributes 0 and `c_factor` is only applied to
`num_samples ≥ 2` — but `from_slice` applies `c_factor(sample_size)` to
every set of options that passes validation, and validation accepts
`sample_size = 1` (it only requires `sample_size ≤ len`, `N ≥ 1`,
`extension_level ≤ N - 1`). -/
theorem C3_amended_call_sites :
    (∀ (N : ℕ) (x : Point N) (ns : ℕ), ns ≤ 1 →
      path_length_recurse (Node.Ex ns) x = 0) ∧
    (∀ (N : ℕ) (x : Point N) (ns : ℕ), 2 ≤ ns →
      path_length_recurse (Node.Ex ns) x = c_factor ns) ∧
    validate_options 1 1
      { n_trees := 1, sample_size := 1, max_tree_depth := none,
        extension_level := 0 } = none ∧
    (∀ (N : ℕ) (data : List (Point N)) (o : ForestOptions) (r : ℕ → TreeRand N)
       (F : Forest N),
      Forest.from_slice data o r = some (Except.ok F) →
      F.avg_path_length_c = c_factor o.sample_size) := by
  refine ⟨?_, ?_, rfl, ?_⟩
  · intro N x ns h; simp [path_length_recurse, h]
  · intro N x ns h
    rw [path_length_recurse, if_neg (by omega)]
  · intro N data o r F h
    exact (from_slice_ok_parts h).2.1

/-- Claim C4: on the all-zero 3-point training set with options that pass
validation (sample size 3 ≤ 3 points, dimension 1, extension level 0), the
build does not return `Ok` with a forest: it panics inside the first tree's
`Uniform::new(0, 0)` call, modelled as `none`. -/
theorem C4_validation_passes_no_ok :
    validate_options 1 3 z3Opts = none ∧
    Forest.from_slice [zeroPoint, zeroPoint, zeroPoint] z3Opts
      (fun _ => z3TreeRand) = none :=
  ⟨rfl, rfl⟩

/-- Claim C5: the path length computed by `path_length_recurse` decomposes as
the number of internal nodes traversed (each contributing exactly 1, descent
following `determinate_direction`) plus the reached leaf's correction: 0 when
its `num_samples ≤ 1`, and `c_factor(num_samples)` otherwise — in particular
`c_factor 2` for a leaf holding two samples. -/
theorem C5_path_length_decomposition {N : ℕ} (node : Node N) (x : Point N) :
    path_length_recurse node x =
      (descent_depth node x : ℝ) +
        (if descent_leaf_samples node x ≤ 1 then 0
         else c_factor (descent_leaf_samples node x)) ∧
    path_length_recurse (Node.Ex 2) x = c_factor 2 := by
  constructor
  · induction node with
    | Ex ns => simp [path_length_recurse, descent_depth, descent_leaf_samples]
    | In l r nv pv ihl ihr =>
      simp only [path_length_recurse, descent_depth, descent_leaf_samples]
      rcases h : determinate_direction x nv pv with _ | _
      · simp only [h]
        rw [ihl]
        push_cast
        ring
      · simp only [h]
        rw [ihr]
        push_cast
        ring
  · rw [path_length_recurse, if_neg (by omega)]

/-- Claim C6: for every forest built by `from_slice` (with at least one
tree — an empty ensemble has no mean path length, see C10) and every query
point, the score is 2 to the power of minus the mean per-tree path length
divided by the constant `c_factor(sample_size)` stored at build time. -/
theorem C6_score_formula {N : ℕ} (data : List (Point N)) (o : ForestOptions)
    (r : ℕ → TreeRand N) (F : Forest N) (x : Point N)
    (hbuild : Forest.from_slice data o r = some (Except.ok F))
    (hne : F.trees ≠ []) :
    Forest.score F x =
      some ((2 : ℝ) ^
        (-((F.trees.map fun t => t.path_length x).sum / (F.trees.length : ℝ)) /
          c_factor o.sample_size)) := by
  obtain ⟨-, havg, -⟩ := from_slice_ok_parts hbuild
  unfold Forest.score
  rw [if_neg (by simpa using hne), havg]

/-- Witness for C6: the concrete two-point build scores by the formula. -/
theorem C6_score_formula_witness :
    Forest.score bForest pt0 =
      some ((2 : ℝ) ^
        (-((bForest.trees.map fun t => t.path_length pt0).sum /
            (bForest.trees.length : ℝ)) / c_factor 2)) :=
  C6_score_formula [pt0, pt1] bOpts (fun _ => bTreeRand) bForest pt0
    (by with_unfolding_all rfl) (by simp [bForest])

/-- Claim C7, refuted: `from_slice` accepts `n_trees = 0` (see C10), and the
resulting forest's score is the f64 NaN (modelled `none`), which is not a
number in (0, 1]. -/
theorem C7_counterexample : ¬score_range_claim := by
  intro h
  have h2 := h 1 [pt0]
    { n_trees := 0, sample_size := 1, max_tree_depth := none, extension_level := 0 }
    (fun _ => bTreeRand) ⟨c_factor 1, []⟩ pt0 rfl
  exact h2.1 (by simp [Forest.score])

/-- Claim C7 as amended: for every forest built by `from_slice` from options
with at least one tree and `sample_size ≥ 2`, and every query point, the
score is a real number s with 0 < s ≤ 1. (With `n_trees = 0` the score is
NaN; `sample_size ≤ 1` makes the f64 normalisation constant -inf or NaN,
outside the real-number model.) -/
theorem C7_amended_score_range {N : ℕ} (data : List (Point N))
    (o : ForestOptions) (r : ℕ → TreeRand N) (F : Forest N) (x : Point N)
    (hbuild : Forest.from_slice data o r = some (Except.ok F))
    (hnt : 1 ≤ o.n_trees) (hss : 2 ≤ o.sample_size) :
    Forest.score F x ≠ none ∧
    0 < (Forest.score F x).getD 0 ∧ (Forest.score F x).getD 0 ≤ 1 := by
  obtain ⟨-, havg, hlen⟩ := from_slice_ok_parts hbuild
  have hlenpos : 0 < F.trees.length := by omega
  have hscore : Forest.score F x =
      some ((2 : ℝ) ^
        (-((F.trees.map fun t => t.path_length x).sum / (F.trees.length : ℝ)) /
          F.avg_path_length_c)) := by
    unfold Forest.score
    rw [if_neg (by omega)]
  have hsum : 0 ≤ (F.trees.map fun t => t.path_length x).sum := by
    apply List.sum_nonneg
    intro a ha
    obtain ⟨t, -, rfl⟩ := List.mem_map.mp ha
    exact path_length_recurse_nonneg t.root x
  have hexp :
      -((F.trees.map fun t => t.path_length x).sum / (F.trees.length : ℝ)) /
        F.avg_path_length_c ≤ 0 := by
    rw [havg]
    apply div_nonpos_of_nonpos_of_nonneg
    · exact neg_nonpos.mpr (div_nonneg hsum (by positivity))
    · exact (c_factor_pos hss).le
  refine ⟨?_, ?_, ?_⟩
  · rw [hscore]; simp
  · rw [hscore, Option.getD_some]
    exact Real.rpow_pos_of_pos (by norm_num) _
  · rw [hscore, Option.getD_some]
    exact Real.rpow_le_one_of_one_le_of_nonpos (by norm_num) hexp

/-- Witness for C7 amended: the concrete two-point build has a score in
(0, 1]. -/
theorem C7_amended_score_range_witness :
    Forest.score bForest pt0 ≠ none ∧
    0 < (Forest.score bForest pt0).getD 0 ∧
    (Forest.score bForest pt0).getD 0 ≤ 1 :=
  C7_amended_score_range [pt0, pt1] bOpts (fun _ => bTreeRand) bForest pt0
    (by with_unfolding_all rfl) (by norm_num [bOpts]) (by norm_num [bOpts])

/-- Claim C8: `determinate_direction` computes the dot product of
`sample - p` with `n` and returns `Left` exactly when it is `≤ 0` — in
particular an exact tie gives `Left`. -/
theorem C8_side_classification {N : ℕ} (sample n p : Point N) :
    (determinate_direction sample n p =
      if (∑ i, (sample i - p i) * n i) ≤ 0 then Direction.Left
      else Direction.Right) ∧
    ((∑ i, (sample i - p i) * n i) = 0 →
      determinate_direction sample n p = Direction.Left) := by
  have hdv := direction_value_eq_sum sample n p
  constructor
  · rw [determinate_direction, hdv]
  · intro h0
    rw [determinate_direction, hdv, h0]
    simp

/-- Claim C9: under the contract of `choose_multiple` (distinct indices,
`N - extension_level - 1` of them), the normal vector equals the
standard-normal draws except at the chosen indices, which are forced to
exactly zero; with extension level 0 that zeroes `N - 1` coordinates, with
extension level `N - 1` none. Moreover every internal node built by
`make_node_core` carries a normal of exactly this shape, with the amount
`N - extension_level - 1` requested from the oracle. -/
theorem C9_normal_vector_sparsification {N : ℕ} (ext : ℕ) (draw : Point N)
    (idxs : List (Fin N)) (hnd : idxs.Nodup)
    (hlen : idxs.length = N - ext - 1) :
    (∀ i ∈ idxs, makeNormal draw idxs i = 0) ∧
    (∀ i, i ∉ idxs → makeNormal draw idxs i = draw i) ∧
    idxs.toFinset.card = N - ext - 1 ∧
    (ext = 0 → idxs.toFinset.card = N - 1) ∧
    (ext = N - 1 → ∀ i, makeNormal draw idxs i = draw i) ∧
    (∀ (fuel : ℕ) (samples : List (Point N)) (rand : List Bool → NodeRand N)
       (path : List Bool) (l r : Node N) (nv pv : Point N),
      make_node_core rand ext fuel samples path = some (Node.In l r nv pv) →
      nv = makeNormal (rand path).normalDraw
        ((rand path).chooseIdxs (N - ext - 1))) := by
  have hcard : idxs.toFinset.card = N - ext - 1 := by
    rw [List.toFinset_card_of_nodup hnd, hlen]
  refine ⟨?_, ?_, hcard, ?_, ?_, ?_⟩
  · intro i hi; simp [makeNormal, hi]
  · intro i hi; simp [makeNormal, hi]
  · intro h0; rw [hcard, h0]; simp
  · intro hext i
    have hnil : idxs = [] := by
      have : idxs.length = 0 := by omega
      exact List.length_eq_zero.mp this
    simp [makeNormal, hnil]
  · intro fuel samples rand path l r nv pv h
    cases fuel with
    | zero =>
      simp [make_node_core] at h
    | succ f =>
      simp only [make_node_core] at h
      split at h
      · simp at h
      · rcases samples with _ | ⟨s0, rest⟩
        · simp at h
        · simp only at h
          rcases hi : interceptOf (rand path).uniformDraw (minsOf s0 rest)
              (maxsOf s0 rest) with _ | pp
          · rw [hi] at h
            simp at h
          · rw [hi] at h
            simp only at h
            split at h
            · simp only [Option.some.injEq, Node.In.injEq] at h
              exact h.2.2.1.symm
            · simp at h

/-- Witness for C9 at dimension 2, extension level 0, chosen index 1. -/
theorem C9_normal_vector_sparsification_witness :
    makeNormal (fun _ => 5) [(1 : Fin 2)] (1 : Fin 2) = 0 :=
  (C9_normal_vector_sparsification 0 (fun _ => (5 : ℚ)) [(1 : Fin 2)]
    (by decide) (by decide)).1 1 (by decide)

/-- Claim C10: options with `n_trees = 0` pass validation unchanged, the
built forest holds zero trees, and its score divides 0.0 by a tree count of
0 — an f64 NaN (modelled `none`) for every query point. -/
theorem C10_zero_trees_nan_score {N : ℕ} (data : List (Point N))
    (o : ForestOptions) (r : ℕ → TreeRand N) (x : Point N)
    (hnt : o.n_trees = 0) (hv : validate_options N data.length o = none) :
    Forest.from_slice data o r =
      some (Except.ok
        { avg_path_length_c := c_factor o.sample_size, trees := [] }) ∧
    Forest.score
      { avg_path_length_c := c_factor o.sample_size,
        trees := ([] : List (Tree N)) } x = none := by
  constructor
  · unfold Forest.from_slice
    rw [hv, hnt]
    simp [build_trees]
  · simp [Forest.score]

/-- Witness for C10: a 1-point training set with `n_trees = 0`. -/
theorem C10_zero_trees_nan_score_witness :
    Forest.from_slice [pt0]
      { n_trees := 0, sample_size := 1, max_tree_depth := none,
        extension_level := 0 } (fun _ => bTreeRand) =
      some (Except.ok { avg_path_length_c := c_factor 1, trees := [] }) ∧
    Forest.score
      { avg_path_length_c := c_factor 1, trees := ([] : List (Tree 1)) }
      pt0 = none :=
  C10_zero_trees_nan_score [pt0]
    { n_trees := 0, sample_size := 1, max_tree_depth := none,
      extension_level := 0 } (fun _ => bTreeRand) pt0 rfl rfl

end EIF
